import Mathlib

/-!
Verification development for the `SocketPacketAssembler` library
(`lib/index.js`): a wrapper around a socket that accumulates arriving
byte chunks in an internal buffer and delivers exactly the requested
number of bytes, either through a single event (`readBytes`) or through
a readable stream (`pipeBytesToStream`).

The JavaScript class is embedded as a pure state machine:
  * the mutable fields of the class become the `Assembler` structure;
  * each method becomes a function from the state to a new state plus a
    list of observable outputs (event emissions, stream pushes, stream
    end signals);
  * `setImmediate` scheduling is modelled by a counter of scheduled
    `emitIfNecessary` callbacks, consumed by an explicit `tick` action;
  * a JavaScript runtime crash (an uncaught TypeError such as reading
    `.length` of `null`) is modelled by `Option.none` results;
  * JavaScript numbers are modelled as exact rationals plus NaN and the
    infinities, which is faithful for every comparison and arithmetic
    operation the library performs.
-/

namespace SPA

/-- One byte, as carried by a Node `Buffer`. -/
abbrev Byte := UInt8

/-- A JavaScript number: a finite value (modelled exactly as a rational),
NaN, or one of the two infinities. -/
inductive JSNum where
  | val (q : ℚ)
  | nan
  | inf
  | ninf
deriving DecidableEq, Repr

/-- A JavaScript value, as far as the library's argument checks can
distinguish them: a number, a string, a boolean, `null`, `undefined`,
or some other object. -/
inductive JSValue where
  | num (x : JSNum)
  | str (s : String)
  | bool (b : Bool)
  | null
  | undef
  | obj
deriving DecidableEq, Repr

/-- The exceptions thrown by `checkBytesToReadValue`:
`Error` for altering a pending request, `TypeError` for a non-number
count, `RangeError` for a non-positive or NaN count. -/
inductive JsErr where
  | stateConflict
  | typeError
  | rangeError
deriving DecidableEq, Repr

/-- An observable output of the assembler: an `EventEmitter` emission
(event mode), a `stream.push(buffer)` (stream mode), or the terminal
`stream.push(null)`.  Streams created by `pipeBytesToStream` are
identified by the number they draw from the state's id supply. -/
inductive Out where
  | emit (name : Option String) (payload : List Byte)
  | push (sid : Nat) (payload : List Byte)
  | streamEnd (sid : Nat)
deriving DecidableEq, Repr

/-- The mutable state of a `SocketPacketAssembler` instance.
`bytesToRead`, `eventName`, `buffer` and `stream` are the class's
nullable fields (`Option.none` is JavaScript `null`);
`bytesReadInStreamMode` is the stream-mode progress counter.
`nextStreamId` is the fresh-name supply identifying the `Readable`
objects created by `pipeBytesToStream`, and `immediates` counts the
`setImmediate(this.emitIfNecessary.bind(this))` callbacks that have
been scheduled but have not yet run. -/
structure Assembler where
  bytesToRead : Option JSNum
  eventName : Option String
  buffer : Option (List Byte)
  stream : Option Nat
  bytesReadInStreamMode : Nat
  nextStreamId : Nat
  immediates : Nat
deriving DecidableEq, Repr

/-- The state right after the constructor ran: every nullable field is
`null` and the stream-mode counter is `0`. -/
def initAssembler : Assembler :=
  { bytesToRead := none
    eventName := none
    buffer := none
    stream := none
    bytesReadInStreamMode := 0
    nextStreamId := 0
    immediates := 0 }

/-- The canonical default event name used by `readBytes`. -/
def defaultLabel : String := "data"

/-- JavaScript truncation toward zero (`ToInteger`) of a finite number. -/
def ratTrunc (q : ℚ) : ℤ :=
  if 0 ≤ q then ⌊q⌋ else -⌊-q⌋

/-- The JavaScript comparison `len > x` where `len` is a `Buffer` length
and `x` is the value of `this.bytesToRead` (a number or `null`).
`null` coerces to `0`; any comparison with NaN is false. -/
def jsGtLen (len : Nat) (x : Option JSNum) : Bool :=
  match x with
  | none => decide (0 < len)
  | some (.val q) => decide (q < (len : ℚ))
  | some .nan => false
  | some .inf => false
  | some .ninf => true

/-- The JavaScript strict comparison `len === x` where `len` is a
natural number and `x` is a number or `null`: true only when `x` is a
finite number with exactly that value. -/
def jsStrictEq (len : Nat) (x : Option JSNum) : Bool :=
  match x with
  | some (.val q) => decide ((len : ℚ) = q)
  | _ => false

/-- The index coercion performed by `Buffer.slice`: `ToInteger`, then a
negative index counts from the end, and the result is clamped into
`[0, len]`.  `null` and NaN coerce to `0`. -/
def jsIndex (len : Nat) (x : Option JSNum) : Nat :=
  match x with
  | none => 0
  | some (.val q) =>
      if q < 0 then ((len : ℤ) + ratTrunc q).toNat
      else min (ratTrunc q).toNat len
  | some .nan => 0
  | some .inf => len
  | some .ninf => 0

/-- JavaScript subtraction `x - k` where `x` is `this.bytesToRead`
(a number or `null`, `null` coercing to `0`) and `k` is
`this.bytesReadInStreamMode`. -/
def jsSub (x : Option JSNum) (k : Nat) : JSNum :=
  match x with
  | none => .val (0 - (k : ℚ))
  | some (.val q) => .val (q - (k : ℚ))
  | some .nan => .nan
  | some .inf => .inf
  | some .ninf => .ninf

/-- The JavaScript test `x <= 0` on a number (false for NaN and `+∞`,
true for `-∞`). -/
def jsLe0 : JSNum → Bool
  | .val q => decide (q ≤ 0)
  | .nan => false
  | .inf => false
  | .ninf => true

/-- The JavaScript predicate `isNaN(x)` on a number. -/
def jsIsNaN : JSNum → Bool
  | .nan => true
  | _ => false

/-- The validator `checkBytesToReadValue(bytesToRead)`: throws `Error` when a request
is already pending (`this.bytesToRead !== null`), `TypeError` when the
argument is not a number, `RangeError` when it is `<= 0` or NaN.
On success it returns the validated number (in the source the method
returns nothing; carrying the number makes the embedding direct). -/
def checkBytesToReadValue (st : Assembler) (v : JSValue) : Except JsErr JSNum :=
  if st.bytesToRead ≠ none then .error .stateConflict
  else
    match v with
    | .num x => if jsLe0 x || jsIsNaN x then .error .rangeError else .ok x
    | _ => .error .typeError

/-- The method `bufferData(data)`: append the arrived chunk to the internal buffer
(adopting it wholesale when the buffer is `null`). -/
def bufferData (st : Assembler) (data : List Byte) : Assembler :=
  match st.buffer with
  | none => { st with buffer := some data }
  | some b => { st with buffer := some (b ++ data) }

/-- The method `sliceInternalBuffer(bytesToRead, notFewer)` on a non-null buffer
`buf`: returns the extracted chunk (or `null`) together with the new
value of `this.buffer`.  When the buffer holds more than requested the
head is cut off; when it holds exactly the requested amount, or fewer
while fewer are allowed, the whole buffer is taken and the buffer
becomes `null`; otherwise nothing is taken. -/
def sliceInternalBuffer (buf : List Byte) (bytesToRead : Option JSNum)
    (notFewer : Bool) : Option (List Byte) × Option (List Byte) :=
  if jsGtLen buf.length bytesToRead then
    (some (buf.take (jsIndex buf.length bytesToRead)),
     some (buf.drop (jsIndex buf.length bytesToRead)))
  else if jsStrictEq buf.length bytesToRead || !notFewer then
    (some buf, none)
  else
    (none, some buf)

/-- The method `emitIfNecessary()`: slice the internal buffer with `notFewer` set;
when a chunk comes back, clear `this.bytesToRead` and emit the chunk
under `this.eventName`.  Reading `this.buffer.length` while the buffer
is `null` is a runtime crash, modelled as `none` (it is reachable only
from a stale `setImmediate` callback). -/
def emitIfNecessary (st : Assembler) : Option (Assembler × List Out) :=
  match st.buffer with
  | none => none
  | some buf =>
    match sliceInternalBuffer buf st.bytesToRead true with
    | (none, buf2) => some ({ st with buffer := buf2 }, [])
    | (some bufToEmit, buf2) =>
        some ({ st with buffer := buf2, bytesToRead := none },
              [.emit st.eventName bufToEmit])

/-- The method `pipeBufferToStream()`: slice `bytesToRead - bytesReadInStreamMode`
bytes (fewer allowed), add the chunk's length to the progress counter,
push the chunk to the stream; when the counter reaches `bytesToRead`,
reset `stream`, `bytesToRead` and the counter, then push `null`
(the end signal) to the captured stream. -/
def pipeBufferToStream (st : Assembler) : Option (Assembler × List Out) :=
  match st.buffer with
  | none => none
  | some buf =>
    match sliceInternalBuffer buf
        (some (jsSub st.bytesToRead st.bytesReadInStreamMode)) false with
    | (none, _) => none
    | (some bufToPipe, buf2) =>
      match st.stream with
      | none => none
      | some sid =>
        let read2 := st.bytesReadInStreamMode + bufToPipe.length
        if jsStrictEq read2 st.bytesToRead then
          some ({ st with buffer := buf2, stream := none,
                          bytesToRead := none, bytesReadInStreamMode := 0 },
                [.push sid bufToPipe, .streamEnd sid])
        else
          some ({ st with buffer := buf2, bytesReadInStreamMode := read2 },
                [.push sid bufToPipe])

/-- The event name chosen by `readBytes`: the ternary
`typeof identifier === 'string' && identifier !== '' ? identifier : 'data'`. -/
def eventNameOf (identifier : JSValue) : String :=
  match identifier with
  | .str s => if s = "" then defaultLabel else s
  | _ => defaultLabel

/-- The method `readBytes(bytesToRead, identifier)`: validate, store the count,
store the event name (the identifier when it is a non-empty string,
otherwise the default, see `eventNameOf`), and when the buffer is not
`null` schedule an `emitIfNecessary` callback via `setImmediate`.
Returns the state and the exception, if one was thrown; nothing is
emitted synchronously. -/
def readBytes (st : Assembler) (v identifier : JSValue) :
    Assembler × Option JsErr :=
  match checkBytesToReadValue st v with
  | .error e => (st, some e)
  | .ok x =>
    let st1 := { st with bytesToRead := some x,
                         eventName := some (eventNameOf identifier) }
    if st1.buffer ≠ none then
      ({ st1 with immediates := st1.immediates + 1 }, none)
    else
      (st1, none)

/-- The method `pipeBytesToStream(bytesToRead)`: validate, store the count, reset
the progress counter, create a fresh `Readable` (identified by
`st.nextStreamId`), and when the buffer is not `null` pipe immediately.
Returns the state, the synchronously produced outputs, and the
exception if one was thrown; `none` is a runtime crash. -/
def pipeBytesToStream (st : Assembler) (v : JSValue) :
    Option (Assembler × List Out × Option JsErr) :=
  match checkBytesToReadValue st v with
  | .error e => some (st, [], some e)
  | .ok x =>
    let st1 := { st with bytesToRead := some x, bytesReadInStreamMode := 0,
                         stream := some st.nextStreamId,
                         nextStreamId := st.nextStreamId + 1 }
    if st1.buffer ≠ none then
      match pipeBufferToStream st1 with
      | none => none
      | some (st2, outs) => some (st2, outs, none)
    else
      some (st1, [], none)

/-- The handler `handleDataFromSocket(data)`: buffer the chunk; when no request is
pending, stop; otherwise dispatch to stream mode (`this.stream` is
truthy) or event mode. -/
def handleDataFromSocket (st : Assembler) (data : List Byte) :
    Option (Assembler × List Out) :=
  let st1 := bufferData st data
  if st1.bytesToRead = none then some (st1, [])
  else if st1.stream.isSome then pipeBufferToStream st1
  else emitIfNecessary st1

/-- Run one scheduled `setImmediate` callback, all of which are
`emitIfNecessary`; a no-op when nothing is scheduled. -/
def runImmediate (st : Assembler) : Option (Assembler × List Out) :=
  match st.immediates with
  | 0 => some (st, [])
  | k + 1 => emitIfNecessary { st with immediates := k }

/-- An external stimulus of the assembler: a socket `data` event, a
`readBytes` call, a `pipeBytesToStream` call, or one turn of the event
loop running a scheduled callback. -/
inductive Act where
  | data (chunk : List Byte)
  | read (v identifier : JSValue)
  | pipe (v : JSValue)
  | tick
deriving DecidableEq, Repr

/-- One stimulus applied to a state.  A thrown exception propagates to
the caller of `readBytes`/`pipeBytesToStream` and leaves the trace
running; `none` is an uncaught runtime crash. -/
def step (st : Assembler) (a : Act) : Option (Assembler × List Out) :=
  match a with
  | .data c => handleDataFromSocket st c
  | .read v i => some ((readBytes st v i).1, [])
  | .pipe v =>
    match pipeBytesToStream st v with
    | none => none
    | some (st1, outs, _) => some (st1, outs)
  | .tick => runImmediate st

/-- Run a sequence of stimuli, concatenating the observable outputs. -/
def run (st : Assembler) : List Act → Option (Assembler × List Out)
  | [] => some (st, [])
  | a :: as =>
    match step st a with
    | none => none
    | some (st1, outs) =>
      match run st1 as with
      | none => none
      | some (st2, outs2) => some (st2, outs ++ outs2)

/-- The bytes of a possibly-`null` buffer. -/
def bufBytes : Option (List Byte) → List Byte
  | none => []
  | some b => b

/-- The bytes carried by one output (an end signal carries none). -/
def outBytes : Out → List Byte
  | .emit _ p => p
  | .push _ p => p
  | .streamEnd _ => []

/-- All bytes delivered by a list of outputs, in delivery order. -/
def deliveredBytes (outs : List Out) : List Byte :=
  (outs.map outBytes).flatten

/-- The bytes a single stimulus carries from the socket. -/
def actBytes : Act → List Byte
  | .data c => c
  | _ => []

/-- All bytes that arrived from the socket in a list of stimuli, in
arrival order. -/
def arrivedBytes (acts : List Act) : List Byte :=
  (acts.map actBytes).flatten

/-! ### Characterizations of the JavaScript helpers at natural-number counts -/

theorem jsGtLen_natCast (len n : ℕ) :
    jsGtLen len (some (.val (n : ℚ))) = decide (n < len) := by
  simp [jsGtLen, Nat.cast_lt]

theorem jsStrictEq_natCast (len n : ℕ) :
    jsStrictEq len (some (.val (n : ℚ))) = decide (len = n) := by
  simp [jsStrictEq, Nat.cast_inj]

theorem ratTrunc_natCast (n : ℕ) : ratTrunc (n : ℚ) = n := by
  simp [ratTrunc, Int.floor_natCast]

theorem jsIndex_natCast (len n : ℕ) :
    jsIndex len (some (.val (n : ℚ))) = min n len := by
  have h : ¬ ((n : ℚ) < 0) := by exact_mod_cast not_lt.mpr (Nat.cast_nonneg n)
  simp [jsIndex, h, ratTrunc_natCast]

theorem jsSub_natCast (n d : ℕ) (h : d ≤ n) :
    jsSub (some (.val (n : ℚ))) d = .val ((n - d : ℕ) : ℚ) := by
  simp [jsSub]
  push_cast [h]
  ring

/-- The slice at a genuine natural-number count behaves as
the spec describes: cut the head off when there is more, take
everything when there is exactly enough or fewer are allowed, take
nothing otherwise. -/
theorem sliceInternalBuffer_natCast (buf : List Byte) (n : ℕ) (f : Bool) :
    sliceInternalBuffer buf (some (.val (n : ℚ))) f =
      if n < buf.length then (some (buf.take n), some (buf.drop n))
      else if buf.length = n ∨ f = false then (some buf, none)
      else (none, some buf) := by
  unfold sliceInternalBuffer
  rw [jsGtLen_natCast, jsStrictEq_natCast, jsIndex_natCast]
  by_cases h : n < buf.length
  · simp [h, Nat.min_eq_left (le_of_lt h)]
  · by_cases h2 : buf.length = n
    · simp [h, h2]
    · cases f <;> simp [h, h2]

/-! ### Byte conservation: every delivered byte comes off the head of
the internal buffer, and the buffer holds exactly the bytes that
arrived but were not yet delivered. -/

theorem deliveredBytes_nil : deliveredBytes [] = [] := rfl

theorem deliveredBytes_cons (o : Out) (outs : List Out) :
    deliveredBytes (o :: outs) = outBytes o ++ deliveredBytes outs := by
  simp [deliveredBytes]

theorem deliveredBytes_append (o1 o2 : List Out) :
    deliveredBytes (o1 ++ o2) = deliveredBytes o1 ++ deliveredBytes o2 := by
  simp [deliveredBytes]

theorem arrivedBytes_cons (a : Act) (acts : List Act) :
    arrivedBytes (a :: acts) = actBytes a ++ arrivedBytes acts := by
  simp [arrivedBytes]

theorem sliceInternalBuffer_bytes (buf : List Byte) (x : Option JSNum)
    (f : Bool) :
    bufBytes (sliceInternalBuffer buf x f).1 ++
      bufBytes (sliceInternalBuffer buf x f).2 = buf := by
  unfold sliceInternalBuffer
  by_cases h1 : jsGtLen buf.length x
  · simp [h1, bufBytes]
  · by_cases h2 : jsStrictEq buf.length x || !f
    · simp [h1, h2, bufBytes]
    · simp [h1, h2, bufBytes]

theorem bufferData_buffer (st : Assembler) (c : List Byte) :
    (bufferData st c).buffer = some (bufBytes st.buffer ++ c) := by
  unfold bufferData
  rcases hb : st.buffer with _ | b <;> simp [hb, bufBytes]

theorem bufferData_fields (st : Assembler) (c : List Byte) :
    (bufferData st c).bytesToRead = st.bytesToRead ∧
    (bufferData st c).eventName = st.eventName ∧
    (bufferData st c).stream = st.stream ∧
    (bufferData st c).bytesReadInStreamMode = st.bytesReadInStreamMode ∧
    (bufferData st c).nextStreamId = st.nextStreamId ∧
    (bufferData st c).immediates = st.immediates := by
  unfold bufferData
  rcases st.buffer with _ | b <;> simp

/-- The state installed by a successful `pipeBytesToStream(x)` before
any immediate piping: count stored, progress counter reset, a fresh
stream installed. -/
def streamStartState (st : Assembler) (x : JSNum) : Assembler :=
  { st with bytesToRead := some x, bytesReadInStreamMode := 0,
            stream := some st.nextStreamId,
            nextStreamId := st.nextStreamId + 1 }

/-! ### Unfolding lemmas, one per control path of each method -/

theorem emitIfNecessary_nullbuf (st : Assembler) (hb : st.buffer = none) :
    emitIfNecessary st = none := by
  unfold emitIfNecessary; rw [hb]

theorem emitIfNecessary_slice_none (st : Assembler) (buf : List Byte)
    (b2 : Option (List Byte)) (hb : st.buffer = some buf)
    (hsl : sliceInternalBuffer buf st.bytesToRead true = (none, b2)) :
    emitIfNecessary st = some ({ st with buffer := b2 }, []) := by
  unfold emitIfNecessary
  rw [hb]; dsimp only; rw [hsl]

theorem emitIfNecessary_slice_some (st : Assembler) (buf c : List Byte)
    (b2 : Option (List Byte)) (hb : st.buffer = some buf)
    (hsl : sliceInternalBuffer buf st.bytesToRead true = (some c, b2)) :
    emitIfNecessary st = some ({ st with buffer := b2, bytesToRead := none },
      [.emit st.eventName c]) := by
  unfold emitIfNecessary
  rw [hb]; dsimp only; rw [hsl]

theorem pipeBufferToStream_nullbuf (st : Assembler) (hb : st.buffer = none) :
    pipeBufferToStream st = none := by
  unfold pipeBufferToStream; rw [hb]

theorem pipeBufferToStream_end (st : Assembler) (buf c : List Byte)
    (b2 : Option (List Byte)) (sid : Nat) (hb : st.buffer = some buf)
    (hsl : sliceInternalBuffer buf
      (some (jsSub st.bytesToRead st.bytesReadInStreamMode)) false =
      (some c, b2))
    (hstr : st.stream = some sid)
    (hEnd : jsStrictEq (st.bytesReadInStreamMode + c.length)
      st.bytesToRead = true) :
    pipeBufferToStream st =
      some ({ st with buffer := b2, stream := none, bytesToRead := none,
                      bytesReadInStreamMode := 0 },
            [.push sid c, .streamEnd sid]) := by
  unfold pipeBufferToStream
  rw [hb]; dsimp only; rw [hsl]; dsimp only; rw [hstr]; dsimp only
  rw [if_pos hEnd]

theorem pipeBufferToStream_more (st : Assembler) (buf c : List Byte)
    (b2 : Option (List Byte)) (sid : Nat) (hb : st.buffer = some buf)
    (hsl : sliceInternalBuffer buf
      (some (jsSub st.bytesToRead st.bytesReadInStreamMode)) false =
      (some c, b2))
    (hstr : st.stream = some sid)
    (hEnd : jsStrictEq (st.bytesReadInStreamMode + c.length)
      st.bytesToRead = false) :
    pipeBufferToStream st =
      some ({ st with buffer := b2,
                      bytesReadInStreamMode :=
                        st.bytesReadInStreamMode + c.length },
            [.push sid c]) := by
  unfold pipeBufferToStream
  rw [hb]; dsimp only; rw [hsl]; dsimp only; rw [hstr]; dsimp only
  rw [if_neg (by simp [hEnd])]

theorem handleDataFromSocket_idle (st : Assembler) (c : List Byte)
    (h : st.bytesToRead = none) :
    handleDataFromSocket st c = some (bufferData st c, []) := by
  unfold handleDataFromSocket
  rw [if_pos ((bufferData_fields st c).1.trans h)]

theorem handleDataFromSocket_stream (st : Assembler) (c : List Byte)
    (h : st.bytesToRead ≠ none) (hstr : st.stream.isSome) :
    handleDataFromSocket st c = pipeBufferToStream (bufferData st c) := by
  unfold handleDataFromSocket
  rw [if_neg (by rw [(bufferData_fields st c).1]; exact h),
      if_pos (by rw [(bufferData_fields st c).2.2.1]; exact hstr)]

theorem handleDataFromSocket_event (st : Assembler) (c : List Byte)
    (h : st.bytesToRead ≠ none) (hstr : st.stream = none) :
    handleDataFromSocket st c = emitIfNecessary (bufferData st c) := by
  unfold handleDataFromSocket
  rw [if_neg (by rw [(bufferData_fields st c).1]; exact h),
      if_neg (by rw [(bufferData_fields st c).2.2.1, hstr]; simp)]

theorem readBytes_err (st : Assembler) (v i : JSValue) (e : JsErr)
    (h : checkBytesToReadValue st v = .error e) :
    readBytes st v i = (st, some e) := by
  unfold readBytes; rw [h]

theorem readBytes_ok_nobuf (st : Assembler) (v i : JSValue) (x : JSNum)
    (h : checkBytesToReadValue st v = .ok x) (hb : st.buffer = none) :
    readBytes st v i =
      ({ st with bytesToRead := some x,
                 eventName := some (eventNameOf i) }, none) := by
  unfold readBytes
  rw [h]; dsimp only; rw [if_neg (by simp [hb])]

theorem readBytes_ok_buf (st : Assembler) (v i : JSValue) (x : JSNum)
    (buf : List Byte) (h : checkBytesToReadValue st v = .ok x)
    (hb : st.buffer = some buf) :
    readBytes st v i =
      ({ st with bytesToRead := some x,
                 eventName := some (eventNameOf i),
                 immediates := st.immediates + 1 }, none) := by
  unfold readBytes
  rw [h]; dsimp only; rw [if_pos (by simp [hb])]

theorem pipeBytesToStream_err (st : Assembler) (v : JSValue) (e : JsErr)
    (h : checkBytesToReadValue st v = .error e) :
    pipeBytesToStream st v = some (st, [], some e) := by
  unfold pipeBytesToStream; rw [h]

theorem pipeBytesToStream_ok_nobuf (st : Assembler) (v : JSValue) (x : JSNum)
    (h : checkBytesToReadValue st v = .ok x) (hb : st.buffer = none) :
    pipeBytesToStream st v = some (streamStartState st x, [], none) := by
  unfold pipeBytesToStream streamStartState
  rw [h]; dsimp only; rw [if_neg (by simp [hb])]

theorem pipeBytesToStream_ok_buf (st : Assembler) (v : JSValue) (x : JSNum)
    (buf : List Byte) (h : checkBytesToReadValue st v = .ok x)
    (hb : st.buffer = some buf) :
    pipeBytesToStream st v =
      (pipeBufferToStream (streamStartState st x)).map
        (fun r => (r.1, r.2, none)) := by
  unfold pipeBytesToStream streamStartState
  rw [h]; dsimp only; rw [if_pos (by simp [hb])]
  rcases pipeBufferToStream _ with _ | ⟨st2, outs⟩ <;> rfl

theorem runImmediate_zero (st : Assembler) (h : st.immediates = 0) :
    runImmediate st = some (st, []) := by
  unfold runImmediate; rw [h]

theorem runImmediate_succ (st : Assembler) (k : Nat)
    (h : st.immediates = k + 1) :
    runImmediate st = emitIfNecessary { st with immediates := k } := by
  unfold runImmediate; rw [h]

theorem run_nil (st : Assembler) : run st [] = some (st, []) := rfl

theorem run_cons_some (st st1 st2 : Assembler) (a : Act) (as : List Act)
    (outs1 outs2 : List Out) (hs : step st a = some (st1, outs1))
    (hr : run st1 as = some (st2, outs2)) :
    run st (a :: as) = some (st2, outs1 ++ outs2) := by
  unfold run; rw [hs]; dsimp only; rw [hr]

theorem run_cons_crash (st : Assembler) (a : Act) (as : List Act)
    (hs : step st a = none) : run st (a :: as) = none := by
  unfold run; rw [hs]

theorem run_cons_crash2 (st st1 : Assembler) (a : Act) (as : List Act)
    (outs1 : List Out) (hs : step st a = some (st1, outs1))
    (hr : run st1 as = none) : run st (a :: as) = none := by
  unfold run; rw [hs]; dsimp only; rw [hr]

/-! ### The conservation invariant itself -/

theorem emitIfNecessary_bytes (st st2 : Assembler) (outs : List Out)
    (h : emitIfNecessary st = some (st2, outs)) :
    deliveredBytes outs ++ bufBytes st2.buffer = bufBytes st.buffer := by
  rcases hb : st.buffer with _ | buf
  · rw [emitIfNecessary_nullbuf st hb] at h; cases h
  · have hs := sliceInternalBuffer_bytes buf st.bytesToRead true
    rcases hsl : sliceInternalBuffer buf st.bytesToRead true with ⟨_ | c, b2⟩
    · rw [emitIfNecessary_slice_none st buf b2 hb hsl] at h
      rw [hsl] at hs
      simp only [Option.some_inj, Prod.mk.injEq] at h
      rw [← h.1, ← h.2]
      simpa [bufBytes, deliveredBytes] using hs
    · rw [emitIfNecessary_slice_some st buf c b2 hb hsl] at h
      rw [hsl] at hs
      simp only [Option.some_inj, Prod.mk.injEq] at h
      rw [← h.1, ← h.2]
      simpa [bufBytes, deliveredBytes, outBytes] using hs

theorem pipeBufferToStream_bytes (st st2 : Assembler) (outs : List Out)
    (h : pipeBufferToStream st = some (st2, outs)) :
    deliveredBytes outs ++ bufBytes st2.buffer = bufBytes st.buffer := by
  rcases hb : st.buffer with _ | buf
  · rw [pipeBufferToStream_nullbuf st hb] at h; cases h
  · have hs := sliceInternalBuffer_bytes buf
      (some (jsSub st.bytesToRead st.bytesReadInStreamMode)) false
    rcases hsl : sliceInternalBuffer buf
        (some (jsSub st.bytesToRead st.bytesReadInStreamMode)) false
      with ⟨_ | c, b2⟩
    · exfalso
      unfold pipeBufferToStream at h
      rw [hb] at h; dsimp only at h; rw [hsl] at h; cases h
    · rw [hsl] at hs
      rcases hstr : st.stream with _ | sid
      · exfalso
        unfold pipeBufferToStream at h
        rw [hb] at h; dsimp only at h; rw [hsl] at h; dsimp only at h
        rw [hstr] at h; cases h
      · by_cases hEnd :
            jsStrictEq (st.bytesReadInStreamMode + c.length) st.bytesToRead
        · rw [pipeBufferToStream_end st buf c b2 sid hb hsl hstr hEnd] at h
          simp only [Option.some_inj, Prod.mk.injEq] at h
          rw [← h.1, ← h.2]
          simpa [bufBytes, deliveredBytes, outBytes] using hs
        · rw [pipeBufferToStream_more st buf c b2 sid hb hsl hstr
            (by simpa using hEnd)] at h
          simp only [Option.some_inj, Prod.mk.injEq] at h
          rw [← h.1, ← h.2]
          simpa [bufBytes, deliveredBytes, outBytes] using hs

theorem handleDataFromSocket_bytes (st st2 : Assembler) (c : List Byte)
    (outs : List Out) (h : handleDataFromSocket st c = some (st2, outs)) :
    deliveredBytes outs ++ bufBytes st2.buffer = bufBytes st.buffer ++ c := by
  have hbuf := bufferData_buffer st c
  by_cases h1 : st.bytesToRead = none
  · rw [handleDataFromSocket_idle st c h1] at h
    simp only [Option.some_inj, Prod.mk.injEq] at h
    rw [← h.1, ← h.2]
    simp [deliveredBytes, hbuf, bufBytes]
  · by_cases h2 : st.stream.isSome
    · rw [handleDataFromSocket_stream st c h1 h2] at h
      have := pipeBufferToStream_bytes _ _ _ h
      rw [hbuf] at this
      simpa [bufBytes] using this
    · rw [handleDataFromSocket_event st c h1
        (by rcases hstr : st.stream with _ | sid
            · rfl
            · rw [hstr] at h2; exact absurd rfl h2)] at h
      have := emitIfNecessary_bytes _ _ _ h
      rw [hbuf] at this
      simpa [bufBytes] using this

theorem readBytes_buffer (st : Assembler) (v i : JSValue) :
    (readBytes st v i).1.buffer = st.buffer := by
  rcases hc : checkBytesToReadValue st v with e | x
  · rw [readBytes_err st v i e hc]
  · rcases hb : st.buffer with _ | buf
    · rw [readBytes_ok_nobuf st v i x hc hb, hb]
    · rw [readBytes_ok_buf st v i x buf hc hb, hb]

theorem step_bytes (st st2 : Assembler) (a : Act) (outs : List Out)
    (h : step st a = some (st2, outs)) :
    deliveredBytes outs ++ bufBytes st2.buffer =
      bufBytes st.buffer ++ actBytes a := by
  rcases a with c | ⟨v, i⟩ | v | _
  · exact handleDataFromSocket_bytes st st2 c outs h
  · simp only [step, Option.some_inj, Prod.mk.injEq] at h
    rw [← h.1, ← h.2]
    simp [deliveredBytes, readBytes_buffer, actBytes]
  · simp only [step] at h
    rcases hc : checkBytesToReadValue st v with e | x
    · rw [pipeBytesToStream_err st v e hc] at h
      dsimp only at h
      simp only [Option.some_inj, Prod.mk.injEq] at h
      rw [← h.1, ← h.2]
      simp [deliveredBytes, actBytes]
    · rcases hb : st.buffer with _ | buf
      · rw [pipeBytesToStream_ok_nobuf st v x hc hb] at h
        dsimp only at h
        simp only [Option.some_inj, Prod.mk.injEq] at h
        rw [← h.1, ← h.2]
        simp [deliveredBytes, actBytes, hb, bufBytes, streamStartState]
      · rw [pipeBytesToStream_ok_buf st v x buf hc hb] at h
        rcases hpp : pipeBufferToStream (streamStartState st x)
          with _ | ⟨st3, outs3⟩
        · rw [hpp] at h; cases h
        · rw [hpp] at h
          simp only [Option.map_some', Option.some_inj, Prod.mk.injEq] at h
          have := pipeBufferToStream_bytes _ _ _ hpp
          rw [← h.1, ← h.2]
          simpa [actBytes, hb, bufBytes, streamStartState] using this
  · simp only [step] at h
    rcases hi : st.immediates with _ | k
    · rw [runImmediate_zero st hi] at h
      simp only [Option.some_inj, Prod.mk.injEq] at h
      rw [← h.1, ← h.2]
      simp [deliveredBytes, actBytes]
    · rw [runImmediate_succ st k hi] at h
      have := emitIfNecessary_bytes _ _ _ h
      simpa [actBytes, bufBytes] using this

theorem run_bytes (acts : List Act) :
    ∀ (st st2 : Assembler) (outs : List Out),
      run st acts = some (st2, outs) →
      deliveredBytes outs ++ bufBytes st2.buffer =
        bufBytes st.buffer ++ arrivedBytes acts := by
  induction acts with
  | nil =>
    intro st st2 outs h
    rw [run_nil] at h
    simp only [Option.some_inj, Prod.mk.injEq] at h
    rw [← h.1, ← h.2]
    simp [deliveredBytes, arrivedBytes]
  | cons a as ih =>
    intro st st2 outs h
    rcases hs : step st a with _ | ⟨st1, outs1⟩
    · rw [run_cons_crash st a as hs] at h; cases h
    · rcases hr : run st1 as with _ | ⟨st3, outs3⟩
      · rw [run_cons_crash2 st st1 a as outs1 hs hr] at h; cases h
      · rw [run_cons_some st st1 st3 a as outs1 outs3 hs hr] at h
        simp only [Option.some_inj, Prod.mk.injEq] at h
        rw [← h.1, ← h.2]
        have h1 := step_bytes st st1 a outs1 hs
        have h2 := ih st1 st3 outs3 hr
        rw [arrivedBytes_cons, deliveredBytes_append]
        rw [List.append_assoc, h2, ← List.append_assoc, h1,
          List.append_assoc]

/-! ### Runs made only of chunk arrivals -/

theorem step_data (st : Assembler) (c : List Byte) :
    step st (.data c) = handleDataFromSocket st c := rfl

/-- While no request is pending, arriving chunks only accumulate:
nothing is delivered and no request appears. -/
theorem run_data_idle (cs : List (List Byte)) :
    ∀ st : Assembler, st.bytesToRead = none →
      ∃ st2, run st (cs.map Act.data) = some (st2, []) ∧
        st2.bytesToRead = none := by
  induction cs with
  | nil => intro st h; exact ⟨st, run_nil st, h⟩
  | cons c cs ih =>
    intro st h
    have hstep : step st (.data c) = some (bufferData st c, []) := by
      rw [step_data]; exact handleDataFromSocket_idle st c h
    obtain ⟨st2, hrun, h2⟩ := ih (bufferData st c)
      ((bufferData_fields st c).1.trans h)
    refine ⟨st2, ?_, h2⟩
    rw [List.map_cons,
      run_cons_some st (bufferData st c) st2 (.data c) (cs.map Act.data)
        [] [] hstep hrun]
    rfl

/-- Feeding chunks into a pending event-mode request for `n` bytes:
as soon as the accumulated bytes reach `n` — and the hypotheses say
they reach `n` exactly — one event fires carrying everything, and the
request is gone. -/
theorem run_data_event (n : ℕ) (cs : List (List Byte)) :
    ∀ (st : Assembler) (name : String),
      st.bytesToRead = some (.val (n : ℚ)) → st.stream = none →
      st.eventName = some name →
      (bufBytes st.buffer).length < n →
      (bufBytes st.buffer).length + cs.flatten.length = n →
      ∃ st2, run st (cs.map Act.data) =
        some (st2, [.emit (some name) (bufBytes st.buffer ++ cs.flatten)]) ∧
        st2.bytesToRead = none := by
  induction cs with
  | nil =>
    intro st name hbtr hstr hname hlen htot
    exact absurd htot (by simpa using Nat.ne_of_lt hlen)
  | cons c cs ih =>
    intro st name hbtr hstr hname hlen htot
    have hne : st.bytesToRead ≠ none := by rw [hbtr]; simp
    have hstep0 : handleDataFromSocket st c =
        emitIfNecessary (bufferData st c) :=
      handleDataFromSocket_event st c hne hstr
    have hbuf1 : (bufferData st c).buffer =
        some (bufBytes st.buffer ++ c) := bufferData_buffer st c
    have hf := bufferData_fields st c
    have hbtr1 : (bufferData st c).bytesToRead = some (.val (n : ℚ)) :=
      hf.1.trans hbtr
    have htot2 : (bufBytes st.buffer).length + c.length +
        cs.flatten.length = n := by
      simpa [Nat.add_assoc] using htot
    by_cases hcase : (bufBytes st.buffer ++ c).length = n
    · -- the accumulated bytes reach exactly n: the event fires now
      have hflat : cs.flatten = [] := by
        have : cs.flatten.length = 0 := by
          simp only [List.length_append] at hcase
          omega
        exact List.eq_nil_of_length_eq_zero this
      have hsl : sliceInternalBuffer (bufBytes st.buffer ++ c)
          (bufferData st c).bytesToRead true =
          (some (bufBytes st.buffer ++ c), none) := by
        rw [hbtr1, sliceInternalBuffer_natCast]
        rw [if_neg (by omega), if_pos (Or.inl hcase)]
      have hemit := emitIfNecessary_slice_some (bufferData st c)
        (bufBytes st.buffer ++ c) (bufBytes st.buffer ++ c) none hbuf1 hsl
      have hstep : step st (.data c) =
          some ({ bufferData st c with
                  buffer := none
                  bytesToRead := none },
                [.emit (some name) (bufBytes st.buffer ++ c)]) := by
        rw [step_data, hstep0, hemit]
        simp [hf.2.1, hname]
      obtain ⟨st2, hrun, h2⟩ := run_data_idle cs
        { bufferData st c with
          buffer := none
          bytesToRead := none }
        (by simp)
      refine ⟨st2, ?_, h2⟩
      rw [List.map_cons, run_cons_some _ _ _ _ _ _ _ hstep hrun]
      simp [hflat]
    · -- still not enough bytes: accumulate and recurse
      have hlt : (bufBytes st.buffer ++ c).length < n := by
        simp only [List.length_append] at hcase ⊢
        omega
      have hsl : sliceInternalBuffer (bufBytes st.buffer ++ c)
          (bufferData st c).bytesToRead true =
          (none, some (bufBytes st.buffer ++ c)) := by
        rw [hbtr1, sliceInternalBuffer_natCast]
        rw [if_neg (by omega),
          if_neg (by simp only [List.length_append] at hcase; simp [hcase])]
      have hemit := emitIfNecessary_slice_none (bufferData st c)
        (bufBytes st.buffer ++ c) (some (bufBytes st.buffer ++ c)) hbuf1 hsl
      have hstep : step st (.data c) =
          some ({ bufferData st c with
                  buffer := some (bufBytes st.buffer ++ c) }, []) := by
        rw [step_data, hstep0, hemit]
      obtain ⟨st2, hrun, h2⟩ := ih
        { bufferData st c with
          buffer := some (bufBytes st.buffer ++ c) }
        name (by simpa using hbtr1) (by simpa using hf.2.2.1.trans hstr)
        (by simpa using hf.2.1.trans hname)
        (by simpa [bufBytes] using hlt)
        (by simpa [bufBytes, Nat.add_assoc] using htot2)
      refine ⟨st2, ?_, h2⟩
      rw [List.map_cons, run_cons_some _ _ _ _ _ _ _ hstep hrun]
      simp [bufBytes, List.append_assoc]

/-- Feeding chunks into a pending stream-mode request for `n` bytes of
which `d` have already been delivered: pushes drain every arriving
chunk until the total reaches `n`, at which point the end signal fires,
and nothing else concerning the stream ever happens. -/
theorem run_data_pipe (n : ℕ) (cs : List (List Byte)) :
    ∀ (st : Assembler) (d sid : ℕ),
      st.bytesToRead = some (.val (n : ℚ)) → st.stream = some sid →
      st.bytesReadInStreamMode = d → d < n → st.buffer = none →
      n - d ≤ cs.flatten.length →
      ∃ (st2 : Assembler) (pushes : List (List Byte)),
        run st (cs.map Act.data) =
        some (st2, pushes.map (Out.push sid) ++ [.streamEnd sid]) ∧
        (pushes.map List.length).sum = n - d ∧
        st2.bytesToRead = none := by
  induction cs with
  | nil =>
    intro st d sid hbtr hstr hd hdn hbuf hsup
    exfalso
    simp only [List.flatten_nil, List.length_nil, Nat.le_zero] at hsup
    omega
  | cons c cs ih =>
    intro st d sid hbtr hstr hd hdn hbuf hsup
    have hne : st.bytesToRead ≠ none := by rw [hbtr]; simp
    have hstep0 : handleDataFromSocket st c =
        pipeBufferToStream (bufferData st c) :=
      handleDataFromSocket_stream st c hne (by rw [hstr]; rfl)
    have hbuf1 : (bufferData st c).buffer = some c := by
      rw [bufferData_buffer, hbuf]; simp [bufBytes]
    have hf := bufferData_fields st c
    have hbtr1 : (bufferData st c).bytesToRead = some (.val (n : ℚ)) :=
      hf.1.trans hbtr
    have hstr1 : (bufferData st c).stream = some sid := hf.2.2.1.trans hstr
    have hd1 : (bufferData st c).bytesReadInStreamMode = d :=
      hf.2.2.2.1.trans hd
    have hsub : jsSub (bufferData st c).bytesToRead
        (bufferData st c).bytesReadInStreamMode =
        .val (((n - d : ℕ) : ℚ)) := by
      rw [hbtr1, hd1]; exact jsSub_natCast n d (le_of_lt hdn)
    have hsup2 : n - d ≤ c.length + cs.flatten.length := by
      simpa using hsup
    by_cases hmore : n - d < c.length
    · -- the chunk covers the rest of the request, with bytes left over
      have hsl : sliceInternalBuffer c
          (some (jsSub (bufferData st c).bytesToRead
            (bufferData st c).bytesReadInStreamMode)) false =
          (some (c.take (n - d)), some (c.drop (n - d))) := by
        rw [hsub, sliceInternalBuffer_natCast, if_pos hmore]
      have hlen : (c.take (n - d)).length = n - d := by
        simp [Nat.le_of_lt hmore]
      have hEnd : jsStrictEq
          ((bufferData st c).bytesReadInStreamMode +
            (c.take (n - d)).length)
          (bufferData st c).bytesToRead = true := by
        rw [hbtr1, hd1, hlen, jsStrictEq_natCast]
        simp only [decide_eq_true_eq]
        omega
      have hpipe := pipeBufferToStream_end (bufferData st c) c
        (c.take (n - d)) (some (c.drop (n - d))) sid hbuf1 hsl hstr1 hEnd
      have hstep : step st (.data c) =
          some ({ bufferData st c with
                  buffer := some (c.drop (n - d))
                  stream := none
                  bytesToRead := none
                  bytesReadInStreamMode := 0 },
                [.push sid (c.take (n - d)), .streamEnd sid]) := by
        rw [step_data, hstep0, hpipe]
      obtain ⟨st2, hrun, h2⟩ := run_data_idle cs
        { bufferData st c with
          buffer := some (c.drop (n - d))
          stream := none
          bytesToRead := none
          bytesReadInStreamMode := 0 }
        (by simp)
      refine ⟨st2, [c.take (n - d)], ?_, ?_, h2⟩
      · rw [List.map_cons, run_cons_some _ _ _ _ _ _ _ hstep hrun]
        simp
      · simp [hlen]
    · by_cases hexact : c.length = n - d
      · -- the chunk covers the rest of the request exactly
        have hsl : sliceInternalBuffer c
            (some (jsSub (bufferData st c).bytesToRead
              (bufferData st c).bytesReadInStreamMode)) false =
            (some c, none) := by
          rw [hsub, sliceInternalBuffer_natCast, if_neg hmore,
            if_pos (Or.inl hexact)]
        have hEnd : jsStrictEq
            ((bufferData st c).bytesReadInStreamMode + c.length)
            (bufferData st c).bytesToRead = true := by
          rw [hbtr1, hd1, jsStrictEq_natCast]
          simp only [decide_eq_true_eq]
          omega
        have hpipe := pipeBufferToStream_end (bufferData st c) c c none sid
          hbuf1 hsl hstr1 hEnd
        have hstep : step st (.data c) =
            some ({ bufferData st c with
                    buffer := none
                    stream := none
                    bytesToRead := none
                    bytesReadInStreamMode := 0 },
                  [.push sid c, .streamEnd sid]) := by
          rw [step_data, hstep0, hpipe]
        obtain ⟨st2, hrun, h2⟩ := run_data_idle cs
          { bufferData st c with
            buffer := none
            stream := none
            bytesToRead := none
            bytesReadInStreamMode := 0 }
          (by simp)
        refine ⟨st2, [c], ?_, ?_, h2⟩
        · rw [List.map_cons, run_cons_some _ _ _ _ _ _ _ hstep hrun]
          simp
        · simp [hexact]
      · -- the chunk is consumed whole and the request stays pending
        have hless : c.length < n - d := by omega
        have hsl : sliceInternalBuffer c
            (some (jsSub (bufferData st c).bytesToRead
              (bufferData st c).bytesReadInStreamMode)) false =
            (some c, none) := by
          rw [hsub, sliceInternalBuffer_natCast, if_neg hmore,
            if_pos (Or.inr rfl)]
        have hEnd : jsStrictEq
            ((bufferData st c).bytesReadInStreamMode + c.length)
            (bufferData st c).bytesToRead = false := by
          rw [hbtr1, hd1, jsStrictEq_natCast]
          simp only [decide_eq_false_iff_not]
          omega
        have hpipe := pipeBufferToStream_more (bufferData st c) c c none sid
          hbuf1 hsl hstr1 hEnd
        have hstep : step st (.data c) =
            some ({ bufferData st c with
                    buffer := none
                    bytesReadInStreamMode := d + c.length },
                  [.push sid c]) := by
          rw [step_data, hstep0, hpipe, hd1]
        obtain ⟨st2, pushes, hrun, hsum, h2⟩ := ih
          { bufferData st c with
            buffer := none
            bytesReadInStreamMode := d + c.length }
          (d + c.length) sid (by simpa using hbtr1)
          (by simpa using hstr1) (by simp) (by omega) (by simp)
          (by omega)
        refine ⟨st2, c :: pushes, ?_, ?_, h2⟩
        · rw [List.map_cons, run_cons_some _ _ _ _ _ _ _ hstep hrun]
          simp
        · simp only [List.map_cons, List.sum_cons] at hsum ⊢
          omega

/-! ### Small bridges used by the claim theorems -/

theorem step_read (st : Assembler) (v i : JSValue) :
    step st (.read v i) = some ((readBytes st v i).1, []) := rfl

theorem step_tick (st : Assembler) : step st .tick = runImmediate st := rfl

theorem step_pipe_some (st st1 : Assembler) (v : JSValue) (outs : List Out)
    (e : Option JsErr) (h : pipeBytesToStream st v = some (st1, outs, e)) :
    step st (.pipe v) = some (st1, outs) := by
  unfold step; dsimp only; rw [h]

/-- Validation accepts a genuine positive integer count whenever no
request is pending. -/
theorem checkBytesToReadValue_posNat (st : Assembler) (k : ℕ)
    (h : st.bytesToRead = none) (hk : 0 < k) :
    checkBytesToReadValue st (.num (.val (k : ℚ))) = .ok (.val (k : ℚ)) := by
  have hq : ¬ ((k : ℚ) ≤ 0) := by
    rw [not_le]
    exact_mod_cast hk
  unfold checkBytesToReadValue
  rw [if_neg (by simp [h])]
  simp [jsLe0, jsIsNaN, hq]

/-- When the buffer holds at least `n` bytes and an event-mode request
for `n` bytes is pending, `emitIfNecessary` fires the event with the
first `n` buffered bytes and keeps exactly the rest. -/
theorem emitIfNecessary_fire (st : Assembler) (n : ℕ) (buf : List Byte)
    (name : String) (hb : st.buffer = some buf)
    (hbtr : st.bytesToRead = some (.val (n : ℚ)))
    (hname : st.eventName = some name) (hlen : n ≤ buf.length) :
    ∃ b2, emitIfNecessary st =
        some ({ st with buffer := b2, bytesToRead := none },
              [.emit (some name) (buf.take n)]) ∧
      bufBytes b2 = buf.drop n := by
  by_cases hlt : n < buf.length
  · have hsl : sliceInternalBuffer buf st.bytesToRead true =
        (some (buf.take n), some (buf.drop n)) := by
      rw [hbtr, sliceInternalBuffer_natCast, if_pos hlt]
    refine ⟨some (buf.drop n), ?_, rfl⟩
    rw [emitIfNecessary_slice_some st buf (buf.take n) (some (buf.drop n))
      hb hsl, hname]
  · have heq : buf.length = n := le_antisymm (not_lt.mp hlt) hlen
    have hsl : sliceInternalBuffer buf st.bytesToRead true =
        (some buf, none) := by
      rw [hbtr, sliceInternalBuffer_natCast, if_neg hlt,
        if_pos (Or.inl heq)]
    refine ⟨none, ?_, ?_⟩
    · rw [emitIfNecessary_slice_some st buf buf none hb hsl, hname,
        ← heq, List.take_length]
    · rw [← heq, List.drop_length]; rfl

/-- Any identifier other than a non-empty string falls back to the
default event name. -/
theorem eventNameOf_default (i : JSValue)
    (hi : ∀ s, i = .str s → s = "") : eventNameOf i = defaultLabel := by
  unfold eventNameOf
  rcases i with x | s | b | _ | _ | _ <;> try rfl
  dsimp only
  rw [if_pos (hi s rfl)]

/-! ### The claims -/

/-- C1: for every positive count `n` and every partition of a byte
sequence of exactly `n` bytes into arriving chunks, after
`readBytes(n)` on a fresh assembler the event-mode notification fires
exactly once — the whole run produces that single output — and its
payload is byte-for-byte the concatenation of the chunks in arrival
order. -/
theorem c1_event_mode_exact_assembly (n : ℕ) (hn : 0 < n)
    (cs : List (List Byte)) (hcs : cs.flatten.length = n) :
    ∃ st2, run initAssembler
        (.read (.num (.val (n : ℚ))) .undef :: cs.map Act.data) =
      some (st2, [.emit (some defaultLabel) cs.flatten]) := by
  have hc := checkBytesToReadValue_posNat initAssembler n rfl hn
  have hread := readBytes_ok_nobuf initAssembler (.num (.val (n : ℚ)))
    .undef (.val (n : ℚ)) hc rfl
  have hstep : step initAssembler (.read (.num (.val (n : ℚ))) .undef) =
      some ({ initAssembler with
              bytesToRead := some (.val (n : ℚ))
              eventName := some (eventNameOf .undef) }, []) := by
    rw [step_read, hread]
  obtain ⟨st2, hrun, _⟩ := run_data_event n cs
    { initAssembler with
      bytesToRead := some (.val (n : ℚ))
      eventName := some (eventNameOf .undef) }
    defaultLabel rfl rfl rfl
    (by simpa [initAssembler, bufBytes] using hn)
    (by simpa [initAssembler, bufBytes] using hcs)
  refine ⟨st2, ?_⟩
  rw [run_cons_some _ _ _ _ _ _ _ hstep hrun]
  simp [initAssembler, bufBytes]

theorem c1_witness : ∃ st2, run initAssembler
      (.read (.num (.val ((3 : ℕ) : ℚ))) .undef ::
        ([[1], [2, 3]] : List (List Byte)).map Act.data) =
    some (st2, [.emit (some defaultLabel)
      ([[1], [2, 3]] : List (List Byte)).flatten]) :=
  c1_event_mode_exact_assembly 3 (by decide) [[1], [2, 3]] (by decide)

/-- C2: over every interleaving of chunk arrivals, `readBytes` calls,
`pipeBytesToStream` calls and event-loop turns that does not crash the
process, the bytes delivered (event payloads and stream pushes, in
delivery order) form a prefix of the bytes that arrived, in arrival
order: nothing is dropped, duplicated or reordered, in particular
across mode switches. -/
theorem c2_delivered_prefix_of_arrived (acts : List Act) (st2 : Assembler)
    (outs : List Out) (h : run initAssembler acts = some (st2, outs)) :
    ∃ rest, arrivedBytes acts = deliveredBytes outs ++ rest := by
  refine ⟨bufBytes st2.buffer, ?_⟩
  have hb := run_bytes acts initAssembler st2 outs h
  rw [hb]
  simp [initAssembler, bufBytes]

theorem c2_witness :
    ∃ rest, arrivedBytes
        [.read (.num (.val ((2 : ℕ) : ℚ))) .undef, .data [7, 8, 9]] =
      deliveredBytes [.emit (some defaultLabel) [7, 8]] ++ rest :=
  c2_delivered_prefix_of_arrived
    [.read (.num (.val ((2 : ℕ) : ℚ))) .undef, .data [7, 8, 9]]
    ⟨none, some defaultLabel, some [9], none, 0, 0, 0⟩
    [.emit (some defaultLabel) [7, 8]] (by decide)

/-- C5 (demonstration of the divergence): `checkBytesToReadValue` only
tests `typeof`, `<= 0` and `isNaN`, so `readBytes(2.5)` and
`readBytes(Infinity)` are accepted without an error, although `5 / 2`
is not an integer (and `Infinity` is not finite) — contradicting both
the claim and the code's own error message, which demands a positive
integer. -/
theorem c5_noninteger_count_accepted :
    (readBytes initAssembler (.num (.val (5 / 2))) .undef).2 = none ∧
    (readBytes initAssembler (.num .inf) .undef).2 = none ∧
    ¬ (∃ k : ℤ, ((5 / 2 : ℚ) = (k : ℚ))) := by
  have hq : ¬ ((5 / 2 : ℚ) ≤ 0) := by norm_num
  have hc : checkBytesToReadValue initAssembler (.num (.val (5 / 2))) =
      .ok (.val (5 / 2)) := by
    unfold checkBytesToReadValue
    rw [if_neg (by simp [initAssembler])]
    simp [jsLe0, jsIsNaN, hq]
  have hc2 : checkBytesToReadValue initAssembler (.num .inf) =
      .ok .inf := by
    unfold checkBytesToReadValue
    rw [if_neg (by simp [initAssembler])]
    simp [jsLe0, jsIsNaN]
  refine ⟨?_, ?_, ?_⟩
  · rw [readBytes_ok_nobuf initAssembler _ .undef _ hc rfl]
  · rw [readBytes_ok_nobuf initAssembler _ .undef _ hc2 rfl]
  rintro ⟨k, hk⟩
  have h5 : (5 : ℚ) = 2 * (k : ℚ) := by
    field_simp at hk
    linarith
  have h5z : (5 : ℤ) = 2 * k := by exact_mod_cast h5
  omega

/-- C6: while any request is pending — event mode or stream mode, any
count — both `readBytes` and `pipeBytesToStream` throw the
state-conflict error synchronously and change nothing. -/
theorem c6_pending_request_conflict (st : Assembler) (v i : JSValue)
    (x : JSNum) (h : st.bytesToRead = some x) :
    readBytes st v i = (st, some .stateConflict) ∧
    pipeBytesToStream st v = some (st, [], some .stateConflict) := by
  have hc : checkBytesToReadValue st v = .error .stateConflict := by
    unfold checkBytesToReadValue
    rw [if_pos (by rw [h]; simp)]
  exact ⟨readBytes_err st v i _ hc, pipeBytesToStream_err st v _ hc⟩

theorem c6_witness :
    (readBytes ⟨some (.val 5), some defaultLabel, none, some 0, 2, 1, 0⟩
        (.num (.val 3)) .undef =
      (⟨some (.val 5), some defaultLabel, none, some 0, 2, 1, 0⟩,
        some .stateConflict)) ∧
    pipeBytesToStream
        ⟨some (.val 5), some defaultLabel, none, some 0, 2, 1, 0⟩
        (.num (.val 3)) =
      some (⟨some (.val 5), some defaultLabel, none, some 0, 2, 1, 0⟩,
        [], some .stateConflict) :=
  c6_pending_request_conflict
    ⟨some (.val 5), some defaultLabel, none, some 0, 2, 1, 0⟩
    (.num (.val 3)) .undef (.val 5) rfl

/-- C9: whenever `readBytes` or `pipeBytesToStream` throws — a pending
request, a non-number count, or an out-of-range count — the assembler's
state is exactly what it was before the call and nothing was emitted,
because validation runs before any mutation. -/
theorem c9_throw_leaves_state_unchanged (st : Assembler) (v i : JSValue) :
    ((readBytes st v i).2.isSome → (readBytes st v i).1 = st) ∧
    (∀ (st2 : Assembler) (outs : List Out) (e : JsErr),
      pipeBytesToStream st v = some (st2, outs, some e) →
      st2 = st ∧ outs = []) := by
  constructor
  · intro hthrow
    rcases hc : checkBytesToReadValue st v with e | x
    · rw [readBytes_err st v i e hc]
    · exfalso
      rcases hb : st.buffer with _ | buf
      · rw [readBytes_ok_nobuf st v i x hc hb] at hthrow
        simp at hthrow
      · rw [readBytes_ok_buf st v i x buf hc hb] at hthrow
        simp at hthrow
  · intro st2 outs e hp
    rcases hc : checkBytesToReadValue st v with e2 | x
    · rw [pipeBytesToStream_err st v e2 hc] at hp
      simp only [Option.some_inj, Prod.mk.injEq] at hp
      exact ⟨hp.1.symm, hp.2.1.symm⟩
    · exfalso
      rcases hb : st.buffer with _ | buf
      · rw [pipeBytesToStream_ok_nobuf st v x hc hb] at hp
        simp at hp
      · rw [pipeBytesToStream_ok_buf st v x buf hc hb] at hp
        rcases hpp : pipeBufferToStream (streamStartState st x)
          with _ | ⟨st3, outs3⟩
        · rw [hpp] at hp; simp at hp
        · rw [hpp] at hp; simp at hp

theorem c9_witness :
    (readBytes initAssembler .obj .undef).1 = initAssembler ∧
    (initAssembler = initAssembler ∧ ([] : List Out) = []) :=
  ⟨(c9_throw_leaves_state_unchanged initAssembler .obj .undef).1
    (by decide),
   (c9_throw_leaves_state_unchanged initAssembler (.num (.val 0))
      .undef).2 initAssembler [] .rangeError (by decide)⟩

/-- C4: when the accumulator holds strictly more than the requested `n`
bytes at event-mode fulfillment, exactly the first `n` bytes are
removed and delivered, the rest stays buffered, and a next request for
any `m` leftover bytes is served starting from those leftover bytes. -/
theorem c4_over_arrival_keeps_remainder (st : Assembler) (n : ℕ)
    (buf : List Byte) (name : String) (hb : st.buffer = some buf)
    (hbtr : st.bytesToRead = some (.val (n : ℚ)))
    (hname : st.eventName = some name) (hn : 0 < n)
    (hlen : n < buf.length) :
    emitIfNecessary st =
      some ({ st with buffer := some (buf.drop n), bytesToRead := none },
            [.emit (some name) (buf.take n)]) ∧
    ∀ m : ℕ, 0 < m → m ≤ buf.length - n →
      ∃ st2, run { st with buffer := some (buf.drop n), bytesToRead := none }
          [.read (.num (.val (m : ℚ))) .undef, .tick] =
        some (st2, [.emit (some defaultLabel) ((buf.drop n).take m)]) := by
  have hsl : sliceInternalBuffer buf st.bytesToRead true =
      (some (buf.take n), some (buf.drop n)) := by
    rw [hbtr, sliceInternalBuffer_natCast, if_pos hlen]
  constructor
  · rw [emitIfNecessary_slice_some st buf _ _ hb hsl, hname]
  · intro m hm hmle
    have hchk : checkBytesToReadValue
        { st with buffer := some (buf.drop n), bytesToRead := none }
        (.num (.val (m : ℚ))) = .ok (.val (m : ℚ)) :=
      checkBytesToReadValue_posNat _ m rfl hm
    have hread := readBytes_ok_buf
      { st with buffer := some (buf.drop n), bytesToRead := none }
      (.num (.val (m : ℚ))) .undef (.val (m : ℚ)) (buf.drop n) hchk rfl
    have hstep1 : step
        { st with buffer := some (buf.drop n), bytesToRead := none }
        (.read (.num (.val (m : ℚ))) .undef) =
        some ({ st with
                buffer := some (buf.drop n)
                bytesToRead := some (.val (m : ℚ))
                eventName := some (eventNameOf .undef)
                immediates := st.immediates + 1 }, []) := by
      rw [step_read, hread]
    obtain ⟨b2, hfire, _⟩ := emitIfNecessary_fire
      { st with
        buffer := some (buf.drop n)
        bytesToRead := some (.val (m : ℚ))
        eventName := some (eventNameOf .undef)
        immediates := st.immediates }
      m (buf.drop n) defaultLabel rfl rfl rfl
      (by rw [List.length_drop]; omega)
    have hstep2 : step
        { st with
          buffer := some (buf.drop n)
          bytesToRead := some (.val (m : ℚ))
          eventName := some (eventNameOf .undef)
          immediates := st.immediates + 1 } .tick =
        some ({ st with
                buffer := b2
                bytesToRead := none
                eventName := some (eventNameOf .undef)
                immediates := st.immediates },
              [.emit (some defaultLabel) ((buf.drop n).take m)]) := by
      rw [step_tick, runImmediate_succ _ st.immediates rfl]
      exact hfire
    refine ⟨{ st with
              buffer := b2
              bytesToRead := none
              eventName := some (eventNameOf .undef)
              immediates := st.immediates }, ?_⟩
    rw [run_cons_some _ _ _ _ _ _ _ hstep1
      (run_cons_some _ _ _ _ _ _ _ hstep2 (run_nil _))]
    simp

theorem c4_witness :
    (emitIfNecessary
        ⟨some (.val ((2 : ℕ) : ℚ)), some defaultLabel, some [7, 8, 9],
          none, 0, 0, 0⟩ =
      some ({ (⟨some (.val ((2 : ℕ) : ℚ)), some defaultLabel,
              some [7, 8, 9], none, 0, 0, 0⟩ : Assembler) with
              buffer := some (([7, 8, 9] : List Byte).drop 2)
              bytesToRead := none },
            [.emit (some defaultLabel) (([7, 8, 9] : List Byte).take 2)])) ∧
    ∃ st2, run { (⟨some (.val ((2 : ℕ) : ℚ)), some defaultLabel,
              some [7, 8, 9], none, 0, 0, 0⟩ : Assembler) with
              buffer := some (([7, 8, 9] : List Byte).drop 2)
              bytesToRead := none }
        [.read (.num (.val ((1 : ℕ) : ℚ))) .undef, .tick] =
      some (st2, [.emit (some defaultLabel)
        ((([7, 8, 9] : List Byte).drop 2).take 1)]) :=
  ⟨(c4_over_arrival_keeps_remainder _ 2 [7, 8, 9] defaultLabel rfl rfl rfl
      (by decide) (by decide)).1,
   (c4_over_arrival_keeps_remainder _ 2 [7, 8, 9] defaultLabel rfl rfl rfl
      (by decide) (by decide)).2 1 (by decide) (by decide)⟩

/-- C7: calling `readBytes(n)` while the accumulator already holds at
least `n` bytes fires nothing synchronously — the call's only effect is
to install the request and schedule one `setImmediate` callback — and
the notification fires when that deferred callback runs. -/
theorem c7_fulfillment_deferred_one_hop (st : Assembler) (n : ℕ)
    (buf : List Byte) (hpend : st.bytesToRead = none)
    (hb : st.buffer = some buf) (hn : 0 < n) (hlen : n ≤ buf.length) :
    step st (.read (.num (.val (n : ℚ))) .undef) =
      some ({ st with
              bytesToRead := some (.val (n : ℚ))
              eventName := some (eventNameOf .undef)
              immediates := st.immediates + 1 }, []) ∧
    ∃ st2, runImmediate
        { st with
          bytesToRead := some (.val (n : ℚ))
          eventName := some (eventNameOf .undef)
          immediates := st.immediates + 1 } =
      some (st2, [.emit (some defaultLabel) (buf.take n)]) := by
  have hchk := checkBytesToReadValue_posNat st n hpend hn
  have hread := readBytes_ok_buf st (.num (.val (n : ℚ))) .undef
    (.val (n : ℚ)) buf hchk hb
  constructor
  · rw [step_read, hread]
  · obtain ⟨b2, hfire, _⟩ := emitIfNecessary_fire
      { st with
        bytesToRead := some (.val (n : ℚ))
        eventName := some (eventNameOf .undef)
        immediates := st.immediates }
      n buf defaultLabel hb rfl rfl hlen
    refine ⟨{ st with
              buffer := b2
              bytesToRead := none
              eventName := some (eventNameOf .undef)
              immediates := st.immediates }, ?_⟩
    rw [runImmediate_succ _ st.immediates rfl]
    exact hfire

theorem c7_witness :
    (step (⟨none, none, some [7, 8, 9], none, 0, 0, 0⟩ : Assembler)
        (.read (.num (.val ((2 : ℕ) : ℚ))) .undef) =
      some ({ (⟨none, none, some [7, 8, 9], none, 0, 0, 0⟩ : Assembler) with
              bytesToRead := some (.val ((2 : ℕ) : ℚ))
              eventName := some (eventNameOf .undef)
              immediates := 0 + 1 }, [])) ∧
    ∃ st2, runImmediate
        { (⟨none, none, some [7, 8, 9], none, 0, 0, 0⟩ : Assembler) with
          bytesToRead := some (.val ((2 : ℕ) : ℚ))
          eventName := some (eventNameOf .undef)
          immediates := 0 + 1 } =
      some (st2, [.emit (some defaultLabel)
        (([7, 8, 9] : List Byte).take 2)]) :=
  c7_fulfillment_deferred_one_hop _ 2 [7, 8, 9] rfl rfl (by decide)
    (by decide)

/-- C8: the pending request is reset strictly before the delivery
signal: whenever the event-mode notification fires the post-state has
the count cleared, and whenever the stream-mode end signal fires the
post-state has the stream, the count and the progress counter cleared;
in both cases a fresh request issued in that state passes validation
instead of raising a state conflict. -/
theorem c8_request_cleared_before_signal (st st2 : Assembler)
    (outs : List Out) (k : ℕ) (hk : 0 < k) :
    (emitIfNecessary st = some (st2, outs) → outs ≠ [] →
      st2.bytesToRead = none ∧
      checkBytesToReadValue st2 (.num (.val (k : ℚ))) =
        .ok (.val (k : ℚ))) ∧
    (pipeBufferToStream st = some (st2, outs) →
      (∃ sid, Out.streamEnd sid ∈ outs) →
      st2.stream = none ∧ st2.bytesToRead = none ∧
      st2.bytesReadInStreamMode = 0 ∧
      checkBytesToReadValue st2 (.num (.val (k : ℚ))) =
        .ok (.val (k : ℚ))) := by
  constructor
  · intro h hne
    rcases hb : st.buffer with _ | buf
    · rw [emitIfNecessary_nullbuf st hb] at h; cases h
    · rcases hsl : sliceInternalBuffer buf st.bytesToRead true
        with ⟨_ | c, b2⟩
      · rw [emitIfNecessary_slice_none st buf b2 hb hsl] at h
        simp only [Option.some_inj, Prod.mk.injEq] at h
        exact absurd h.2.symm hne
      · rw [emitIfNecessary_slice_some st buf c b2 hb hsl] at h
        simp only [Option.some_inj, Prod.mk.injEq] at h
        have hbtr : st2.bytesToRead = none := by rw [← h.1]
        exact ⟨hbtr, checkBytesToReadValue_posNat st2 k hbtr hk⟩
  · intro h hend
    rcases hb : st.buffer with _ | buf
    · rw [pipeBufferToStream_nullbuf st hb] at h; cases h
    · rcases hsl : sliceInternalBuffer buf
          (some (jsSub st.bytesToRead st.bytesReadInStreamMode)) false
        with ⟨_ | c, b2⟩
      · exfalso
        unfold pipeBufferToStream at h
        rw [hb] at h; dsimp only at h; rw [hsl] at h; cases h
      · rcases hstr : st.stream with _ | sid
        · exfalso
          unfold pipeBufferToStream at h
          rw [hb] at h; dsimp only at h; rw [hsl] at h; dsimp only at h
          rw [hstr] at h; cases h
        · by_cases hEnd : jsStrictEq
              (st.bytesReadInStreamMode + c.length) st.bytesToRead
          · rw [pipeBufferToStream_end st buf c b2 sid hb hsl hstr hEnd]
              at h
            simp only [Option.some_inj, Prod.mk.injEq] at h
            have h1 : st2.stream = none := by rw [← h.1]
            have h2 : st2.bytesToRead = none := by rw [← h.1]
            have h3 : st2.bytesReadInStreamMode = 0 := by rw [← h.1]
            exact ⟨h1, h2, h3, checkBytesToReadValue_posNat st2 k h2 hk⟩
          · exfalso
            rw [pipeBufferToStream_more st buf c b2 sid hb hsl hstr
              (by simpa using hEnd)] at h
            simp only [Option.some_inj, Prod.mk.injEq] at h
            obtain ⟨sid2, hmem⟩ := hend
            rw [← h.2] at hmem
            simp at hmem

theorem c8_witness :
    ((⟨none, some defaultLabel, some [9], none, 0, 0, 0⟩ :
        Assembler).bytesToRead = none ∧
      checkBytesToReadValue
        (⟨none, some defaultLabel, some [9], none, 0, 0, 0⟩ : Assembler)
        (.num (.val ((4 : ℕ) : ℚ))) = .ok (.val ((4 : ℕ) : ℚ))) ∧
    ((⟨none, none, some [7], none, 0, 1, 0⟩ : Assembler).stream = none ∧
      (⟨none, none, some [7], none, 0, 1, 0⟩ :
        Assembler).bytesToRead = none ∧
      (⟨none, none, some [7], none, 0, 1, 0⟩ :
        Assembler).bytesReadInStreamMode = 0 ∧
      checkBytesToReadValue
        (⟨none, none, some [7], none, 0, 1, 0⟩ : Assembler)
        (.num (.val ((4 : ℕ) : ℚ))) = .ok (.val ((4 : ℕ) : ℚ))) := by
  have hsub : jsSub (some (.val ((2 : ℕ) : ℚ))) 0 =
      .val (((2 - 0 : ℕ) : ℚ)) := jsSub_natCast 2 0 (by decide)
  have hsl : sliceInternalBuffer [5, 6, 7]
      (some (jsSub (some (.val ((2 : ℕ) : ℚ))) 0)) false =
      (some [5, 6], some [7]) := by
    rw [hsub, sliceInternalBuffer_natCast]
    decide
  have hEnd : jsStrictEq (0 + 2) (some (.val ((2 : ℕ) : ℚ))) = true := by
    rw [jsStrictEq_natCast]
    decide
  have hpipe := pipeBufferToStream_end
    (⟨some (.val ((2 : ℕ) : ℚ)), none, some [5, 6, 7], some 0, 0, 1, 0⟩ :
      Assembler)
    [5, 6, 7] [5, 6] (some [7]) 0 rfl hsl rfl hEnd
  exact ⟨(c8_request_cleared_before_signal
      ⟨some (.val ((2 : ℕ) : ℚ)), some defaultLabel, some [7, 8, 9],
        none, 0, 0, 0⟩
      ⟨none, some defaultLabel, some [9], none, 0, 0, 0⟩
      [.emit (some defaultLabel) [7, 8]] 4 (by decide)).1
      (by decide) (by decide),
    (c8_request_cleared_before_signal
      ⟨some (.val ((2 : ℕ) : ℚ)), none, some [5, 6, 7], some 0, 0, 1, 0⟩
      ⟨none, none, some [7], none, 0, 1, 0⟩
      [.push 0 [5, 6], .streamEnd 0] 4 (by decide)).2
      hpipe ⟨0, by decide⟩⟩

/-- C10: for every `readBytes` call whose identifier is anything but a
non-empty string — `undefined` (omitted), `null`, the empty string, a
number, a boolean, an object — the call succeeds and the eventual
notification fires under the default label. -/
theorem c10_non_string_identifier_defaults (st : Assembler) (i : JSValue)
    (n : ℕ) (c : List Byte) (hpend : st.bytesToRead = none)
    (hb : st.buffer = none) (hstr : st.stream = none) (hn : 0 < n)
    (hc : n ≤ c.length) (hi : ∀ s, i = .str s → s = "") :
    (readBytes st (.num (.val (n : ℚ))) i).2 = none ∧
    ∃ st2, step (readBytes st (.num (.val (n : ℚ))) i).1 (.data c) =
      some (st2, [.emit (some defaultLabel) (c.take n)]) := by
  have hchk := checkBytesToReadValue_posNat st n hpend hn
  have hread := readBytes_ok_nobuf st (.num (.val (n : ℚ))) i
    (.val (n : ℚ)) hchk hb
  constructor
  · rw [hread]
  · rw [hread]
    have hbd : (bufferData
        { st with
          bytesToRead := some (.val (n : ℚ))
          eventName := some (eventNameOf i) } c).buffer =
        some c := by
      rw [bufferData_buffer]
      simp [hb, bufBytes]
    have hff := bufferData_fields
      { st with
        bytesToRead := some (.val (n : ℚ))
        eventName := some (eventNameOf i) } c
    obtain ⟨b2, hfire, _⟩ := emitIfNecessary_fire
      (bufferData { st with
        bytesToRead := some (.val (n : ℚ))
        eventName := some (eventNameOf i) } c)
      n c defaultLabel hbd (hff.1.trans rfl)
      (hff.2.1.trans (by
        show some (eventNameOf i) = some defaultLabel
        rw [eventNameOf_default i hi])) hc
    refine ⟨{ bufferData
        { st with
          bytesToRead := some (.val (n : ℚ))
          eventName := some (eventNameOf i) } c with
        buffer := b2
        bytesToRead := none }, ?_⟩
    rw [step_data, handleDataFromSocket_event
      { st with
        bytesToRead := some (.val (n : ℚ))
        eventName := some (eventNameOf i) } c (by simp) hstr]
    exact hfire

theorem c10_witness :
    (readBytes initAssembler (.num (.val ((2 : ℕ) : ℚ))) .null).2 =
      none ∧
    ∃ st2, step (readBytes initAssembler
        (.num (.val ((2 : ℕ) : ℚ))) .null).1 (.data [7, 8, 9]) =
      some (st2, [.emit (some defaultLabel)
        (([7, 8, 9] : List Byte).take 2)]) :=
  c10_non_string_identifier_defaults initAssembler .null 2 [7, 8, 9]
    rfl rfl rfl (by decide) (by decide)
    (by intro s h; cases h)

/-- C3: a `pipeBytesToStream(n)` request, fed enough bytes (counting
both already-buffered bytes and arriving chunks), produces on the
returned stream exactly a sequence of pushes whose lengths sum to `n`
followed by a single end-of-data signal — the end fires exactly once,
after the last push, exactly when the delivered total reaches `n`, and
nothing concerning the stream happens afterwards. -/
theorem c3_stream_exact_total_single_end (st : Assembler) (n : ℕ)
    (cs : List (List Byte)) (hpend : st.bytesToRead = none) (hn : 0 < n)
    (hsup : n ≤ (bufBytes st.buffer).length + cs.flatten.length) :
    ∃ (st2 : Assembler) (pushes : List (List Byte)),
      run st (.pipe (.num (.val (n : ℚ))) :: cs.map Act.data) =
        some (st2, pushes.map (Out.push st.nextStreamId) ++
          [.streamEnd st.nextStreamId]) ∧
      (pushes.map List.length).sum = n := by
  have hchk := checkBytesToReadValue_posNat st n hpend hn
  have hsub0 : jsSub (some (.val (n : ℚ))) 0 = .val (n : ℚ) := by
    simp [jsSub]
  rcases hb : st.buffer with _ | buf
  · -- empty buffer at the call: no synchronous push happens
    have hpipe := pipeBytesToStream_ok_nobuf st (.num (.val (n : ℚ)))
      (.val (n : ℚ)) hchk hb
    have hstep := step_pipe_some st _ (.num (.val (n : ℚ))) [] none hpipe
    obtain ⟨st2, pushes, hrun, hsum, _⟩ := run_data_pipe n cs
      (streamStartState st (.val (n : ℚ))) 0 st.nextStreamId rfl rfl rfl
      hn hb (by
        rw [hb] at hsup
        simp only [bufBytes, List.length_nil, Nat.zero_add] at hsup
        omega)
    refine ⟨st2, pushes, ?_, by omega⟩
    rw [run_cons_some _ _ _ _ _ _ _ hstep hrun]
    simp
  · -- buffered bytes are piped synchronously within the call
    have hsupb : n ≤ buf.length + cs.flatten.length := by
      simpa [bufBytes, hb] using hsup
    have hok := pipeBytesToStream_ok_buf st (.num (.val (n : ℚ)))
      (.val (n : ℚ)) buf hchk hb
    have hbufS : (streamStartState st (.val (n : ℚ))).buffer = some buf :=
      hb
    have hsubS : jsSub
        (streamStartState st (.val (n : ℚ))).bytesToRead
        (streamStartState st (.val (n : ℚ))).bytesReadInStreamMode =
        .val (n : ℚ) := hsub0
    by_cases hmore : n < buf.length
    · -- more than enough buffered: one push of `n` bytes, then the end
      have hsl : sliceInternalBuffer buf
          (some (jsSub (streamStartState st (.val (n : ℚ))).bytesToRead
            (streamStartState st
              (.val (n : ℚ))).bytesReadInStreamMode)) false =
          (some (buf.take n), some (buf.drop n)) := by
        rw [hsubS, sliceInternalBuffer_natCast, if_pos hmore]
      have htk : (buf.take n).length = n := by
        simp [Nat.le_of_lt hmore]
      have hEnd : jsStrictEq
          ((streamStartState st
            (.val (n : ℚ))).bytesReadInStreamMode + (buf.take n).length)
          (streamStartState st (.val (n : ℚ))).bytesToRead = true := by
        show jsStrictEq (0 + (buf.take n).length)
          (some (.val (n : ℚ))) = true
        rw [jsStrictEq_natCast, htk]
        simp
      have hpipeB := pipeBufferToStream_end
        (streamStartState st (.val (n : ℚ))) buf (buf.take n)
        (some (buf.drop n)) st.nextStreamId hbufS hsl rfl hEnd
      have hstep := step_pipe_some st _ (.num (.val (n : ℚ)))
        [.push st.nextStreamId (buf.take n), .streamEnd st.nextStreamId]
        none (by rw [hok, hpipeB]; rfl)
      obtain ⟨st2, hrun, _⟩ := run_data_idle cs
        { streamStartState st (.val (n : ℚ)) with
          buffer := some (buf.drop n)
          stream := none
          bytesToRead := none
          bytesReadInStreamMode := 0 }
        (by simp)
      refine ⟨st2, [buf.take n], ?_, by simp [htk]⟩
      rw [run_cons_some _ _ _ _ _ _ _ hstep hrun]
      simp
    · by_cases hexact : buf.length = n
      · -- exactly enough buffered: one push of the whole buffer
        have hsl : sliceInternalBuffer buf
            (some (jsSub (streamStartState st (.val (n : ℚ))).bytesToRead
              (streamStartState st
                (.val (n : ℚ))).bytesReadInStreamMode)) false =
            (some buf, none) := by
          rw [hsubS, sliceInternalBuffer_natCast, if_neg hmore,
            if_pos (Or.inl hexact)]
        have hEnd : jsStrictEq
            ((streamStartState st
              (.val (n : ℚ))).bytesReadInStreamMode + buf.length)
            (streamStartState st (.val (n : ℚ))).bytesToRead = true := by
          show jsStrictEq (0 + buf.length) (some (.val (n : ℚ))) = true
          rw [jsStrictEq_natCast]
          simp [hexact]
        have hpipeB := pipeBufferToStream_end
          (streamStartState st (.val (n : ℚ))) buf buf none
          st.nextStreamId hbufS hsl rfl hEnd
        have hstep := step_pipe_some st _ (.num (.val (n : ℚ)))
          [.push st.nextStreamId buf, .streamEnd st.nextStreamId]
          none (by rw [hok, hpipeB]; rfl)
        obtain ⟨st2, hrun, _⟩ := run_data_idle cs
          { streamStartState st (.val (n : ℚ)) with
            buffer := none
            stream := none
            bytesToRead := none
            bytesReadInStreamMode := 0 }
          (by simp)
        refine ⟨st2, [buf], ?_, by simp [hexact]⟩
        rw [run_cons_some _ _ _ _ _ _ _ hstep hrun]
        simp
      · -- not enough buffered yet: the whole buffer is pushed and the
        -- request stays pending for the arriving chunks
        have hless : buf.length < n := by omega
        have hsl : sliceInternalBuffer buf
            (some (jsSub (streamStartState st (.val (n : ℚ))).bytesToRead
              (streamStartState st
                (.val (n : ℚ))).bytesReadInStreamMode)) false =
            (some buf, none) := by
          rw [hsubS, sliceInternalBuffer_natCast, if_neg hmore,
            if_pos (Or.inr rfl)]
        have hEnd : jsStrictEq
            ((streamStartState st
              (.val (n : ℚ))).bytesReadInStreamMode + buf.length)
            (streamStartState st (.val (n : ℚ))).bytesToRead = false := by
          show jsStrictEq (0 + buf.length) (some (.val (n : ℚ))) = false
          rw [jsStrictEq_natCast]
          simp only [decide_eq_false_iff_not]
          omega
        have hpipeB := pipeBufferToStream_more
          (streamStartState st (.val (n : ℚ))) buf buf none
          st.nextStreamId hbufS hsl rfl hEnd
        have hstep := step_pipe_some st _ (.num (.val (n : ℚ)))
          [.push st.nextStreamId buf] none (by rw [hok, hpipeB]; rfl)
        obtain ⟨st2, pushes, hrun, hsum, _⟩ := run_data_pipe n cs
          { streamStartState st (.val (n : ℚ)) with
            buffer := none
            bytesReadInStreamMode := 0 + buf.length }
          (0 + buf.length) st.nextStreamId rfl rfl rfl (by omega) rfl
          (by omega)
        refine ⟨st2, buf :: pushes, ?_, ?_⟩
        · rw [run_cons_some _ _ _ _ _ _ _ hstep hrun]
          simp
        · simp only [List.map_cons, List.sum_cons] at hsum ⊢
          omega

theorem c3_witness :
    ∃ (st2 : Assembler) (pushes : List (List Byte)),
      run initAssembler (.pipe (.num (.val ((3 : ℕ) : ℚ))) ::
          ([[1, 2], [3, 4]] : List (List Byte)).map Act.data) =
        some (st2, pushes.map (Out.push initAssembler.nextStreamId) ++
          [.streamEnd initAssembler.nextStreamId]) ∧
      (pushes.map List.length).sum = 3 :=
  c3_stream_exact_total_single_end initAssembler 3 [[1, 2], [3, 4]]
    rfl (by decide) (by decide)

end SPA
